import Mathlib

/-!
Verification of the log-analysis pipeline (`log_analyzer.py`).

Python strings are modelled as `List Char` (`PyStr`); the dictionaries
returned by `parse_log_line` are modelled as a `LogRecord` structure whose
fields are `Option PyStr` (`none` models an absent key, and the empty
dictionary returned for malformed lines is modelled as `Option.none` of the
whole record, matching the `if parsed_entry:` truthiness test in
`load_logs`).  Machine-level I/O (opening the file, printing) is out of
scope per the specification; `load_logs` consumes an already-available
ordered list of lines, and the renderers produce the list of printed lines.
-/

/-- Strings of the Python program, as lists of Unicode scalar values. -/
abbrev PyStr := List Char

/-- Whitespace characters recognised by Python's `str.strip()` (ASCII part:
space, tab, newline, carriage return, vertical tab, form feed). -/
def isPySpace (c : Char) : Bool :=
  c == ' ' || c == '\t' || c == '\n' || c == '\r' || c == '\x0b' || c == '\x0c'

/-- Model of Python `str.strip()`: drop whitespace from both ends. -/
def pyStrip (s : PyStr) : PyStr :=
  ((s.dropWhile isPySpace).reverse.dropWhile isPySpace).reverse

/-- Model of Python `str.split(sep, maxsplit)` for a one-character separator
`sep`: at most `maxsplit` splits are performed, scanning left to right; empty
pieces between consecutive separators are kept; the final piece is the
remaining text verbatim.  `splitLimit sep n s` is `s.split(sep, n)`. -/
def splitLimit (sep : Char) : Nat → PyStr → List PyStr
  | 0, s => [s]
  | n + 1, s =>
    match s.dropWhile (fun c => c != sep) with
    | [] => [s]
    | _ :: tail => s.takeWhile (fun c => c != sep) :: splitLimit sep n tail

/-- Model of the dictionary built by `parse_log_line`: the four keys
`date`, `time`, `level`, `message`, each possibly absent (`none`). -/
structure LogRecord where
  date : Option PyStr
  time : Option PyStr
  level : Option PyStr
  message : Option PyStr
deriving DecidableEq, Repr

/-- Model of `parse_log_line`: `parts = line.strip().split(' ', 3)`;
`split(' ', 3)` yields at most four pieces, so `len(parts) < 4` is exactly
the failure of the four-element pattern; on success the four pieces become
`date`, `time`, `level` and `message.strip()`.  The empty dictionary
returned for malformed lines is modelled as `none`. -/
def parse_log_line (line : PyStr) : Option LogRecord :=
  match splitLimit ' ' 3 (pyStrip line) with
  | [d, t, l, m] =>
    some { date := some d, time := some t, level := some l,
           message := some (pyStrip m) }
  | _ => none

/-- Model of the loop body of `load_logs`: each line is parsed in order and
the truthy (non-empty) results are appended, preserving order.  The
file-opening and exception branches are the external collaborator's
responsibility per the specification. -/
def load_logs (lines : List PyStr) : List LogRecord :=
  lines.filterMap parse_log_line

/-- Model of Python `str.upper()` on the ASCII range (`Char.toUpper` maps
`a`..`z` to `A`..`Z` and leaves every other character unchanged, exactly as
Python does on this range). -/
def pyUpper (s : PyStr) : PyStr := s.map Char.toUpper

/-- Model of `filter_logs_by_level`: uppercase the requested level, then keep
the records whose `'level'` value (`log.get('level')`, i.e. `none` when the
key is absent) equals it. -/
def filter_logs_by_level (logs : List LogRecord) (level : PyStr) : List LogRecord :=
  logs.filter (fun log => decide (log.level = some (pyUpper level)))

/-- Model of `count_logs_by_level`: collect the `'level'` values of the
records that have one (`if 'level' in log`), then build the counter as a
finite map from each distinct level string to its number of occurrences.
No consumer observes the key order of the Python dict (the renderer sorts),
so the association list is keyed by `List.dedup` of the level list. -/
def count_logs_by_level (logs : List LogRecord) : List (PyStr × Nat) :=
  let levels := logs.filterMap (fun log => log.level)
  levels.dedup.map (fun k => (k, levels.count k))

/-- Header line printed by `display_log_counts`. -/
def headerLine : PyStr := "Level            | Count".toList

/-- Separator line printed by `display_log_counts`. -/
def separatorLine : PyStr := "-----------------|----------".toList

/-- Model of Python's format spec `:<w` (left-align, pad on the right with
spaces to a minimum width `w`). -/
def ljust (s : PyStr) (w : Nat) : PyStr := s ++ List.replicate (w - s.length) ' '

/-- Decimal rendering of a count, as Python's `str`/format of an `int`. -/
def natStr (n : Nat) : PyStr := (Nat.repr n).toList

/-- Model of the data-row f-string of `display_log_counts`:
`f"{level:<16} | {counts[level]:<9}"`. -/
def countRow (level : PyStr) (c : Nat) : PyStr :=
  ljust level 16 ++ " | ".toList ++ ljust (natStr c) 9

/-- Lexicographic (code-point) order on strings as a Boolean comparator,
matching Python's `<=` on `str` used by `sorted`. -/
def strLeB : PyStr → PyStr → Bool
  | [], _ => true
  | _ :: _, [] => false
  | a :: as, b :: bs => if a < b then true else if a = b then strLeB as bs else false

/-- Dictionary access `counts[level]` on the association-list model.  The
renderer only looks up keys of the dict itself, so the `0` default is never
reached where this is applied. -/
def lookupD (counts : List (PyStr × Nat)) (k : PyStr) : Nat :=
  (counts.lookup k).getD 0

/-- Insertion step of the sort used to model Python's `sorted`. -/
def insertSorted (x : PyStr) : List PyStr → List PyStr
  | [] => [x]
  | y :: ys => if strLeB x y then x :: y :: ys else y :: insertSorted x ys

/-- Model of Python's `sorted` on a list of strings: the ascending
lexicographic reordering.  The keys sorted here are distinct (dict keys), so
any correct ascending sort models `sorted(counts.keys())` exactly. -/
def sortStrs : List PyStr → List PyStr
  | [] => []
  | x :: xs => insertSorted x (sortStrs xs)

/-- Model of `display_log_counts`: print the header and separator, then one
row per key of `counts`, iterating the keys in sorted order. -/
def display_log_counts (counts : List (PyStr × Nat)) : List PyStr :=
  headerLine :: separatorLine ::
    (sortStrs (counts.map Prod.fst)).map
      (fun level => countRow level (lookupD counts level))

/-- Message printed when no record matched:
`f"No logs found for level '{filter_level.upper()}'."`. -/
def noLogsLine (filter_level : PyStr) : PyStr :=
  "No logs found for level '".toList ++ pyUpper filter_level ++ "'.".toList

/-- Model of the detail-row f-string of the `__main__` block:
`f"{entry['date']} {entry['time']} - {entry['message']}"`.  The records this
is applied to come from the parser, so all three keys are present. -/
def recordLine (e : LogRecord) : PyStr :=
  e.date.getD [] ++ ' ' :: e.time.getD [] ++ " - ".toList ++ e.message.getD []

/-- Model of the detail view of the `__main__` block (the conditional that
follows the `Details for log level '...':` banner): filter the loaded logs by
the requested level; if any record matched print one line per record, else
print the single not-found message. -/
def detail_view (logs : List LogRecord) (filter_level : PyStr) : List PyStr :=
  let detailed_logs := filter_logs_by_level logs filter_level
  if detailed_logs.isEmpty then [noLogsLine filter_level]
  else detailed_logs.map recordLine

/-- Modelled from the spec: Python's whitespace split `str.split()` (no
separator argument) — runs of whitespace separate the tokens and no empty
tokens are produced.  This is the "whitespace-split token count" the
specification speaks of; it is spec-side only, the program itself splits on
the single space character. -/
def wsTokensAux : PyStr → PyStr → List PyStr
  | [], acc => if acc.isEmpty then [] else [acc.reverse]
  | c :: cs, acc =>
    if isPySpace c then
      if acc.isEmpty then wsTokensAux cs []
      else acc.reverse :: wsTokensAux cs []
    else wsTokensAux cs (c :: acc)

/-- Modelled from the spec: whitespace-split tokens of a line. -/
def wsTokens (s : PyStr) : List PyStr := wsTokensAux s []

/-- Modelled from the spec: a field "left-padded to a minimum field width",
i.e. spaces added on the left until the width is reached. -/
def padLeftSpec (s : PyStr) (w : Nat) : PyStr :=
  List.replicate (w - s.length) ' ' ++ s

/-! ### Helper lemmas about `dropWhile`, `pyStrip`, `splitLimit`, `pyUpper` -/

theorem dropWhile_head_not {α : Type} {p : α → Bool} :
    ∀ {s : List α} {a : α} {t : List α}, s.dropWhile p = a :: t → p a = false := by
  intro s
  induction s with
  | nil => intro a t h; simp [List.dropWhile] at h
  | cons c cs ih =>
    intro a t h
    by_cases hc : p c
    · rw [List.dropWhile_cons_of_pos hc] at h
      exact ih h
    · rw [List.dropWhile_cons_of_neg hc] at h
      cases h
      exact Bool.of_not_eq_true hc

theorem dropWhile_idem {α : Type} (p : α → Bool) (l : List α) :
    (l.dropWhile p).dropWhile p = l.dropWhile p := by
  cases h : l.dropWhile p with
  | nil => simp
  | cons a t =>
    have ha := dropWhile_head_not h
    rw [List.dropWhile_cons_of_neg (by simp [ha])]

theorem pyStrip_reverse_eq (s : PyStr) :
    (pyStrip s).reverse = (s.dropWhile isPySpace).reverse.dropWhile isPySpace := by
  simp [pyStrip]

theorem pyStrip_idem (s : PyStr) : pyStrip (pyStrip s) = pyStrip s := by
  have hB : (pyStrip s).reverse.dropWhile isPySpace = (pyStrip s).reverse := by
    rw [pyStrip_reverse_eq]
    exact dropWhile_idem _ _
  have hA : (pyStrip s).dropWhile isPySpace = pyStrip s := by
    cases h : pyStrip s with
    | nil => simp
    | cons a t =>
      have h1 : s.dropWhile isPySpace =
          a :: (t ++ ((s.dropWhile isPySpace).reverse.takeWhile isPySpace).reverse) := by
        conv_lhs => rw [← List.reverse_reverse (s.dropWhile isPySpace)]
        conv_lhs =>
          rw [← List.takeWhile_append_dropWhile isPySpace (s.dropWhile isPySpace).reverse]
        rw [List.reverse_append, ← pyStrip_reverse_eq, List.reverse_reverse, h]
        simp
      have ha := dropWhile_head_not h1
      rw [List.dropWhile_cons_of_neg (by simp [ha])]
  have step1 : pyStrip (pyStrip s) =
      (((pyStrip s).dropWhile isPySpace).reverse.dropWhile isPySpace).reverse := rfl
  rw [step1, hA, hB, List.reverse_reverse]

theorem splitLimit_ne_nil (sep : Char) (n : Nat) (s : PyStr) :
    splitLimit sep n s ≠ [] := by
  cases n with
  | zero => simp [splitLimit]
  | succ n =>
    unfold splitLimit
    cases s.dropWhile (fun c => c != sep) with
    | nil => simp
    | cons a tail => simp

theorem splitLimit_length (sep : Char) :
    ∀ (n : Nat) (s : PyStr),
      (splitLimit sep n s).length = min (s.count sep) n + 1 := by
  intro n
  induction n with
  | zero => intro s; simp [splitLimit]
  | succ n ih =>
    intro s
    unfold splitLimit
    cases h : s.dropWhile (fun c => c != sep) with
    | nil =>
      have hz : s.count sep = 0 := by
        rw [List.count_eq_zero]
        intro hm
        have := List.dropWhile_eq_nil_iff.mp h sep hm
        simp at this
      simp [hz]
    | cons a tail =>
      have ha : a = sep := by
        have := dropWhile_head_not h
        simpa using this
      have hs : s = s.takeWhile (fun c => c != sep) ++ a :: tail := by
        rw [← h, List.takeWhile_append_dropWhile]
      have htw : (s.takeWhile (fun c => c != sep)).count sep = 0 := by
        rw [List.count_eq_zero]
        intro hm
        have := List.mem_takeWhile_imp hm
        simp at this
      have hc : s.count sep = tail.count sep + 1 := by
        conv_lhs => rw [hs]
        rw [List.count_append, htw, ha]
        simp [List.count_cons]
      simp only [List.length_cons, ih tail]
      rw [hc]
      omega

/-- Joining pieces back with the separator (inverse of `splitLimit`). -/
def joinSep (sep : Char) : List PyStr → PyStr
  | [] => []
  | [x] => x
  | x :: y :: ys => x ++ sep :: joinSep sep (y :: ys)

theorem joinSep_cons_of_ne_nil (sep : Char) (x : PyStr) {r : List PyStr}
    (h : r ≠ []) : joinSep sep (x :: r) = x ++ sep :: joinSep sep r := by
  cases r with
  | nil => exact absurd rfl h
  | cons y ys => rfl

theorem splitLimit_join (sep : Char) :
    ∀ (n : Nat) (s : PyStr), joinSep sep (splitLimit sep n s) = s := by
  intro n
  induction n with
  | zero => intro s; simp [splitLimit, joinSep]
  | succ n ih =>
    intro s
    unfold splitLimit
    cases h : s.dropWhile (fun c => c != sep) with
    | nil => simp [joinSep]
    | cons a tail =>
      have ha : a = sep := by
        have := dropWhile_head_not h
        simpa using this
      rw [joinSep_cons_of_ne_nil sep _ (splitLimit_ne_nil sep n tail), ih tail]
      conv_rhs => rw [← List.takeWhile_append_dropWhile (fun c => c != sep) s]
      rw [h, ha]

theorem splitLimit_dropLast_not_mem (sep : Char) :
    ∀ (n : Nat) (s : PyStr), ∀ piece ∈ (splitLimit sep n s).dropLast, sep ∉ piece := by
  intro n
  induction n with
  | zero => intro s piece hp; simp [splitLimit] at hp
  | succ n ih =>
    intro s piece hp
    unfold splitLimit at hp
    revert hp
    cases h : s.dropWhile (fun c => c != sep) with
    | nil => intro hp; simp at hp
    | cons a tail =>
      intro hp
      rw [List.dropLast_cons_of_ne_nil (splitLimit_ne_nil sep n tail)] at hp
      rcases List.mem_cons.mp hp with h1 | h2
      · subst h1
        intro hm
        have := List.mem_takeWhile_imp hm
        simp at this
      · exact ih tail piece h2

theorem dropWhile_append_sep (sep : Char) (rest : PyStr) :
    ∀ (d : PyStr), sep ∉ d →
      (d ++ sep :: rest).dropWhile (fun c => c != sep) = sep :: rest := by
  intro d
  induction d with
  | nil => intro _; simp [List.dropWhile]
  | cons c cs ihd =>
    intro hd
    have hc : c ≠ sep := by
      intro hcs; exact hd (hcs ▸ List.mem_cons_self c cs)
    rw [List.cons_append, List.dropWhile_cons_of_pos (by simp [hc])]
    exact ihd (fun hm => hd (List.mem_cons_of_mem c hm))

theorem takeWhile_append_sep (sep : Char) (rest : PyStr) :
    ∀ (d : PyStr), sep ∉ d →
      (d ++ sep :: rest).takeWhile (fun c => c != sep) = d := by
  intro d
  induction d with
  | nil => intro _; simp [List.takeWhile]
  | cons c cs ihd =>
    intro hd
    have hc : c ≠ sep := by
      intro hcs; exact hd (hcs ▸ List.mem_cons_self c cs)
    rw [List.cons_append, List.takeWhile_cons_of_pos (by simp [hc])]
    rw [ihd (fun hm => hd (List.mem_cons_of_mem c hm))]

theorem splitLimit_succ_eq (sep : Char) (n : Nat) (s : PyStr) :
    splitLimit sep (n + 1) s =
      match s.dropWhile (fun c => c != sep) with
      | [] => [s]
      | _ :: tail => s.takeWhile (fun c => c != sep) :: splitLimit sep n tail := rfl

theorem splitLimit_cons_of_not_mem (sep : Char) (n : Nat) (d rest : PyStr)
    (hd : sep ∉ d) :
    splitLimit sep (n + 1) (d ++ sep :: rest) = d :: splitLimit sep n rest := by
  rw [splitLimit_succ_eq, dropWhile_append_sep sep rest d hd]
  show (d ++ sep :: rest).takeWhile (fun c => c != sep) :: splitLimit sep n rest =
    d :: splitLimit sep n rest
  rw [takeWhile_append_sep sep rest d hd]

theorem splitLimit3_eq_four_iff (s d t l m : PyStr) :
    splitLimit ' ' 3 s = [d, t, l, m] ↔
      s = d ++ ' ' :: (t ++ ' ' :: (l ++ ' ' :: m)) ∧
        ' ' ∉ d ∧ ' ' ∉ t ∧ ' ' ∉ l := by
  constructor
  · intro h
    refine ⟨?_, ?_, ?_, ?_⟩
    · have hj := splitLimit_join ' ' 3 s
      rw [h] at hj
      simpa [joinSep] using hj.symm
    · exact splitLimit_dropLast_not_mem ' ' 3 s d (by rw [h]; simp)
    · exact splitLimit_dropLast_not_mem ' ' 3 s t (by rw [h]; simp)
    · exact splitLimit_dropLast_not_mem ' ' 3 s l (by rw [h]; simp)
  · rintro ⟨hs, hd, ht, hl⟩
    subst hs
    rw [splitLimit_cons_of_not_mem ' ' 2 d _ hd,
      splitLimit_cons_of_not_mem ' ' 1 t _ ht,
      splitLimit_cons_of_not_mem ' ' 0 l _ hl]
    rfl

theorem length_eq_four {α : Type} {l : List α} :
    l.length = 4 ↔ ∃ a b c d, l = [a, b, c, d] := by
  cases l with
  | nil => simp
  | cons a l' =>
    have h3 : (a :: l').length = 4 ↔ l'.length = 3 := by
      simp [List.length_cons]
    rw [h3, List.length_eq_three]
    constructor
    · rintro ⟨b, c, d, rfl⟩
      exact ⟨a, b, c, d, rfl⟩
    · rintro ⟨a', b, c, d, h⟩
      injection h with h1 h2
      exact ⟨b, c, d, h2⟩

theorem parse_some_iff (line : PyStr) (r : LogRecord) :
    parse_log_line line = some r ↔
      ∃ d t l m, splitLimit ' ' 3 (pyStrip line) = [d, t, l, m] ∧
        r = { date := some d, time := some t, level := some l,
              message := some (pyStrip m) } := by
  constructor
  · intro hr
    unfold parse_log_line at hr
    revert hr
    rcases h : splitLimit ' ' 3 (pyStrip line) with _ | ⟨d, _ | ⟨t, _ | ⟨l, _ | ⟨m, _ | ⟨x, xs⟩⟩⟩⟩⟩ <;>
      intro hr
    all_goals first
      | exact Option.noConfusion hr
      | exact ⟨d, t, l, m, rfl, (Option.some.inj hr).symm⟩
  · rintro ⟨d, t, l, m, hsp, rfl⟩
    unfold parse_log_line
    rw [hsp]

theorem parse_isSome_iff (line : PyStr) :
    (parse_log_line line).isSome = true ↔ 3 ≤ (pyStrip line).count ' ' := by
  rw [Option.isSome_iff_exists]
  constructor
  · rintro ⟨r, hr⟩
    obtain ⟨d, t, l, m, hsp, -⟩ := (parse_some_iff line r).mp hr
    have hlen := splitLimit_length ' ' 3 (pyStrip line)
    rw [hsp] at hlen
    simp at hlen
    omega
  · intro hc
    have hlen := splitLimit_length ' ' 3 (pyStrip line)
    have h4 : (splitLimit ' ' 3 (pyStrip line)).length = 4 := by omega
    obtain ⟨d, t, l, m, hsp⟩ := length_eq_four.mp h4
    exact ⟨_, (parse_some_iff line _).mpr ⟨d, t, l, m, hsp, rfl⟩⟩

theorem toNat_ofNatAux (n : Nat) (h : n.isValidChar) : (Char.ofNatAux n h).toNat = n := rfl

theorem toNat_toUpper_lower (c : Char) (h : 97 ≤ c.toNat ∧ c.toNat ≤ 122) :
    (Char.toUpper c).toNat = c.toNat - 32 := by
  unfold Char.toUpper
  rw [if_pos h]
  have hv : (c.toNat - 32).isValidChar := by
    left
    omega
  rw [Char.ofNat, dif_pos hv]
  exact toNat_ofNatAux _ hv

theorem toUpper_eq_self_of_not_lower (c : Char)
    (h : ¬(97 ≤ c.toNat ∧ c.toNat ≤ 122)) : Char.toUpper c = c := by
  unfold Char.toUpper
  rw [if_neg h]

theorem toUpper_idem (c : Char) : (Char.toUpper c).toUpper = Char.toUpper c := by
  by_cases h : 97 ≤ c.toNat ∧ c.toNat ≤ 122
  · have h2 := toNat_toUpper_lower c h
    apply toUpper_eq_self_of_not_lower
    omega
  · rw [toUpper_eq_self_of_not_lower c h]
    exact toUpper_eq_self_of_not_lower c h

theorem pyUpper_idem (s : PyStr) : pyUpper (pyUpper s) = pyUpper s := by
  induction s with
  | nil => rfl
  | cons c cs ih =>
    simp only [pyUpper, List.map_cons] at *
    rw [toUpper_idem]
    exact congrArg _ (by simpa [pyUpper] using ih)

theorem parse_fields_present (line : PyStr) (r : LogRecord)
    (h : parse_log_line line = some r) :
    r.date.isSome ∧ r.time.isSome ∧ r.level.isSome ∧ r.message.isSome := by
  obtain ⟨d, t, l, m, -, rfl⟩ := (parse_some_iff line r).mp h
  exact ⟨rfl, rfl, rfl, rfl⟩

theorem filterMap_length_countP {α β : Type} (f : α → Option β) (l : List α) :
    (l.filterMap f).length = l.countP (fun a => (f a).isSome) := by
  induction l with
  | nil => rfl
  | cons a t ih =>
    cases h : f a with
    | none => simp [List.filterMap_cons, List.countP_cons, h, ih]
    | some b => simp [List.filterMap_cons, List.countP_cons, h, ih]

theorem filterMap_length_of_all_isSome {α β : Type} (f : α → Option β)
    (l : List α) (h : ∀ a ∈ l, (f a).isSome) :
    (l.filterMap f).length = l.length := by
  induction l with
  | nil => rfl
  | cons a t ih =>
    obtain ⟨b, hb⟩ := Option.isSome_iff_exists.mp (h a (List.mem_cons_self a t))
    rw [List.filterMap_cons, hb, List.length_cons]
    rw [ih (fun x hx => h x (List.mem_cons_of_mem a hx))]
    rfl

theorem lookup_map_pair (f : PyStr → Nat) :
    ∀ (ks : List PyStr) (k : PyStr), k ∈ ks →
      (ks.map (fun x => (x, f x))).lookup k = some (f k) := by
  intro ks
  induction ks with
  | nil => intro k hk; simp at hk
  | cons a t ih =>
    intro k hk
    by_cases hka : k = a
    · subst hka
      simp [List.lookup]
    · rcases List.mem_cons.mp hk with h1 | h2
      · exact absurd h1 hka
      · have hbeq : (k == a) = false := beq_eq_false_iff_ne.mpr hka
        simp [List.lookup, hbeq]
        exact ih k h2

theorem strLeB_total (a b : PyStr) : strLeB a b || strLeB b a := by
  induction a generalizing b with
  | nil => simp [strLeB]
  | cons x xs ih =>
    cases b with
    | nil => simp [strLeB]
    | cons y ys =>
      rcases lt_trichotomy x y with h | h | h
      · simp [strLeB, h]
      · subst h
        simpa [strLeB] using ih ys
      · simp [strLeB, h, asymm h, (ne_of_gt h)]

theorem strLeB_trans (a b c : PyStr) :
    strLeB a b → strLeB b c → strLeB a c := by
  induction a generalizing b c with
  | nil => intro _ _; simp [strLeB]
  | cons x xs ih =>
    cases b with
    | nil => intro h1; simp [strLeB] at h1
    | cons y ys =>
      cases c with
      | nil => intro _ h2; simp [strLeB] at h2
      | cons z zs =>
        intro h1 h2
        by_cases hxy : x < y
        · by_cases hyz : y < z
          · simp [strLeB, lt_trans hxy hyz]
          · by_cases hyz2 : y = z
            · subst hyz2
              simp [strLeB, hxy]
            · simp [strLeB, hyz, hyz2] at h2
        · by_cases hxy2 : x = y
          · subst hxy2
            by_cases hxz : x < z
            · simp [strLeB, hxz]
            · by_cases hxz2 : x = z
              · subst hxz2
                simp only [strLeB, lt_irrefl, if_false, if_pos rfl] at h1 h2 ⊢
                exact ih ys zs h1 h2
              · by_cases hyz : x < z
                · exact absurd hyz hxz
                · simp [strLeB, hyz, hxz2] at h2
          · simp [strLeB, hxy, hxy2] at h1

theorem filterMap_filter_isSome {α β : Type} (f : α → Option β) (l : List α) :
    (l.filter (fun a => (f a).isSome)).filterMap f = l.filterMap f := by
  induction l with
  | nil => rfl
  | cons a t ih =>
    cases h : f a with
    | none =>
      rw [List.filter_cons_of_neg (by simp [h])]
      rw [ih, List.filterMap_cons, h]
    | some b =>
      rw [List.filter_cons_of_pos (by simp [h])]
      rw [List.filterMap_cons, List.filterMap_cons, h, ih]

theorem sum_map_add_pointwise (f g : PyStr → Nat) :
    ∀ l : List PyStr, (l.map (fun x => f x + g x)).sum = (l.map f).sum + (l.map g).sum := by
  intro l
  induction l with
  | nil => rfl
  | cons a t ih =>
    simp only [List.map_cons, List.sum_cons, ih]
    omega

theorem sum_map_indicator_of_not_mem (a : PyStr) (l : List PyStr) (h : a ∉ l) :
    (l.map (fun x => if x = a then 1 else 0)).sum = 0 := by
  rw [List.sum_eq_zero]
  intro n hn
  obtain ⟨x, hx, hxn⟩ := List.mem_map.mp hn
  have hxa : x ≠ a := fun hh => h (hh ▸ hx)
  simp [hxa] at hxn
  omega

theorem sum_map_indicator_of_nodup (a : PyStr) :
    ∀ l : List PyStr, l.Nodup → a ∈ l →
      (l.map (fun x => if x = a then 1 else 0)).sum = 1 := by
  intro l
  induction l with
  | nil => intro _ h; simp at h
  | cons b t ih =>
    intro hnd hmem
    by_cases hab : a = b
    · subst hab
      have hnotin : a ∉ t := (List.nodup_cons.mp hnd).1
      have hz := sum_map_indicator_of_not_mem a t hnotin
      simp [hz]
    · have h2 : a ∈ t := by
        rcases List.mem_cons.mp hmem with h1 | h2
        · exact absurd h1 hab
        · exact h2
      have hba : ¬ b = a := fun hh => hab hh.symm
      simp only [List.map_cons, List.sum_cons, if_neg hba]
      rw [ih (List.nodup_cons.mp hnd).2 h2]

theorem count_cons_split (a b : PyStr) (t : List PyStr) :
    (b :: t).count a = t.count a + (if a = b then 1 else 0) := by
  by_cases h : a = b
  · subst h
    simp [List.count_cons_self, if_pos rfl]
  · rw [List.count_cons_of_ne h, if_neg h]
    omega

theorem sum_count_dedup (l : List PyStr) :
    (l.dedup.map (fun x => l.count x)).sum = l.length := by
  induction l with
  | nil => rfl
  | cons a t ih =>
    have hsplit : ∀ ks : List PyStr,
        (ks.map (fun x => (a :: t).count x)).sum =
          (ks.map (fun x => t.count x)).sum +
            (ks.map (fun x => if x = a then 1 else 0)).sum := by
      intro ks
      rw [← sum_map_add_pointwise]
      apply congrArg
      apply List.map_congr_left
      intro x _
      exact count_cons_split x a t
    by_cases hmem : a ∈ t
    · rw [List.dedup_cons_of_mem hmem, hsplit, ih,
        sum_map_indicator_of_nodup a t.dedup (List.nodup_dedup t)
          (List.mem_dedup.mpr hmem)]
      rfl
    · rw [List.dedup_cons_of_not_mem hmem, List.map_cons, List.sum_cons, hsplit, ih,
        sum_map_indicator_of_not_mem a t.dedup
          (fun hh => hmem (List.mem_dedup.mp hh))]
      have hca : (a :: t).count a = t.count a + 1 := by
        simp [List.count_cons_self]
      have hct : t.count a = 0 := List.count_eq_zero.mpr hmem
      rw [hca, hct]
      simp [List.length_cons]
      omega

/-! ### Claim theorems -/

/-- C9: for every input line `s`, `parse_log_line s` equals `parse_log_line`
applied to `s` with leading and trailing whitespace removed; leading spaces
and the trailing newline never affect whether a record is produced or the
value of any of its fields. -/
theorem parse_log_line_strip_invariant (s : PyStr) :
    parse_log_line s = parse_log_line (pyStrip s) := by
  unfold parse_log_line
  rw [pyStrip_idem]

/-- C4: for every record list and requested level string `L`,
`filter_logs_by_level` returns exactly the subsequence (order-preserving) of
records whose `level` field, compared case-sensitively, equals the
uppercasing of `L`; its length is the number of such records. -/
theorem filter_logs_by_level_spec (logs : List LogRecord) (level : PyStr) :
    (filter_logs_by_level logs level).Sublist logs ∧
    (∀ r : LogRecord, r ∈ filter_logs_by_level logs level ↔
      r ∈ logs ∧ r.level = some (pyUpper level)) ∧
    (filter_logs_by_level logs level).length =
      logs.countP (fun r => decide (r.level = some (pyUpper level))) := by
  refine ⟨List.filter_sublist logs, ?_, ?_⟩
  · intro r
    rw [filter_logs_by_level, List.mem_filter]
    simp
  · rw [filter_logs_by_level, List.countP_eq_length_filter]

/-- C5: for every record store produced by the parser, the sum of all values
of the level-count table equals the number of records in the store. -/
theorem count_logs_by_level_total_count (lines : List PyStr) :
    ((count_logs_by_level (load_logs lines)).map Prod.snd).sum =
      (load_logs lines).length := by
  unfold count_logs_by_level
  rw [List.map_map]
  have hcomp : (Prod.snd ∘ fun k =>
      (k, ((load_logs lines).filterMap (fun log => log.level)).count k))
      = fun k => ((load_logs lines).filterMap (fun log => log.level)).count k := rfl
  rw [hcomp, sum_count_dedup]
  apply filterMap_length_of_all_isSome
  intro r hr
  obtain ⟨s, -, hs⟩ := List.mem_filterMap.mp hr
  exact (parse_fields_present s r hs).2.2.1

/-- C3: a record whose stored level differs from its own uppercasing is
counted in the aggregation under its own literal level key (with a positive
count), yet is selected by no filter request whatsoever: for every requested
level string `L` the record is not in the filtered result. -/
theorem level_case_mismatch_counted_not_filtered (logs : List LogRecord)
    (r : LogRecord) (lv : PyStr) (L : PyStr) (hr : r ∈ logs)
    (hlv : r.level = some lv) (hcase : lv ≠ pyUpper lv) :
    (count_logs_by_level logs).lookup lv =
        some ((logs.filterMap (fun log => log.level)).count lv) ∧
    0 < (logs.filterMap (fun log => log.level)).count lv ∧
    r ∉ filter_logs_by_level logs L := by
  have hmem : lv ∈ logs.filterMap (fun log => log.level) :=
    List.mem_filterMap.mpr ⟨r, hr, hlv⟩
  refine ⟨?_, List.count_pos_iff.mpr hmem, ?_⟩
  · unfold count_logs_by_level
    exact lookup_map_pair _ _ lv (List.mem_dedup.mpr hmem)
  · intro hmemf
    rw [filter_logs_by_level, List.mem_filter] at hmemf
    have h2 := of_decide_eq_true hmemf.2
    rw [hlv] at h2
    have h3 : lv = pyUpper L := Option.some.inj h2
    apply hcase
    rw [h3, pyUpper_idem]

/-- C3 witness: a record with level `"Error"` in a one-record store is
counted under the literal key `"Error"` and is not selected by the filter
request `"error"`. -/
theorem level_case_mismatch_counted_not_filtered_witness :
    (⟨none, none, some "Error".toList, none⟩ : LogRecord) ∈
        [(⟨none, none, some "Error".toList, none⟩ : LogRecord)] ∧
    (⟨none, none, some "Error".toList, none⟩ : LogRecord).level =
        some "Error".toList ∧
    "Error".toList ≠ pyUpper "Error".toList ∧
    ((count_logs_by_level [(⟨none, none, some "Error".toList, none⟩ : LogRecord)]).lookup
          "Error".toList =
        some (([(⟨none, none, some "Error".toList, none⟩ : LogRecord)].filterMap
            (fun log => log.level)).count "Error".toList) ∧
      0 < ([(⟨none, none, some "Error".toList, none⟩ : LogRecord)].filterMap
            (fun log => log.level)).count "Error".toList ∧
      (⟨none, none, some "Error".toList, none⟩ : LogRecord) ∉
        filter_logs_by_level [(⟨none, none, some "Error".toList, none⟩ : LogRecord)]
          "error".toList) :=
  ⟨by decide, by decide, by decide,
    level_case_mismatch_counted_not_filtered _ _ _ _ (by decide) (by decide) (by decide)⟩

/-- C10: the aggregation and the filter are total on arbitrary record lists,
parser output or not: a record lacking a `level` key is never selected by
any filter request, and removing all such records leaves the aggregation
unchanged (they are silently excluded, no error is raised). -/
theorem aggregate_filter_total_missing_level (logs : List LogRecord)
    (r : LogRecord) (L : PyStr) (_hr : r ∈ logs) (h : r.level = none) :
    r ∉ filter_logs_by_level logs L ∧
    count_logs_by_level logs =
      count_logs_by_level (logs.filter (fun x => x.level.isSome)) := by
  constructor
  · intro hmem
    rw [filter_logs_by_level, List.mem_filter] at hmem
    have h2 := of_decide_eq_true hmem.2
    rw [h] at h2
    exact Option.noConfusion h2
  · unfold count_logs_by_level
    rw [filterMap_filter_isSome (fun log => log.level) logs]

/-- C10 witness: a record with no `level` key, in a store also holding an
`INFO` record, matches no filter request and is invisible to the counts. -/
theorem aggregate_filter_total_missing_level_witness :
    (⟨some "d".toList, none, none, none⟩ : LogRecord) ∈
        [(⟨some "d".toList, none, none, none⟩ : LogRecord),
         (⟨none, none, some "INFO".toList, none⟩ : LogRecord)] ∧
    (⟨some "d".toList, none, none, none⟩ : LogRecord).level = none ∧
    ((⟨some "d".toList, none, none, none⟩ : LogRecord) ∉
        filter_logs_by_level
          [(⟨some "d".toList, none, none, none⟩ : LogRecord),
           (⟨none, none, some "INFO".toList, none⟩ : LogRecord)] "info".toList ∧
      count_logs_by_level
          [(⟨some "d".toList, none, none, none⟩ : LogRecord),
           (⟨none, none, some "INFO".toList, none⟩ : LogRecord)] =
        count_logs_by_level
          (([(⟨some "d".toList, none, none, none⟩ : LogRecord),
             (⟨none, none, some "INFO".toList, none⟩ : LogRecord)]).filter
            (fun x => x.level.isSome))) :=
  ⟨by decide, by decide,
    aggregate_filter_total_missing_level _ _ _ (by decide) (by decide)⟩

/-- C7: when a target level is requested and the filter result is non-empty,
the detail view renders exactly one line per matching record, each formatted
from the record's date, time and message, and the lines appear in the
original record-store order (the matching records form an order-preserving
subsequence of the loaded store). -/
theorem detail_view_nonempty_spec (lines : List PyStr) (level : PyStr)
    (h : filter_logs_by_level (load_logs lines) level ≠ []) :
    detail_view (load_logs lines) level =
        (filter_logs_by_level (load_logs lines) level).map recordLine ∧
    (detail_view (load_logs lines) level).length =
        (filter_logs_by_level (load_logs lines) level).length ∧
    (filter_logs_by_level (load_logs lines) level).Sublist (load_logs lines) := by
  have hne : (filter_logs_by_level (load_logs lines) level).isEmpty = false := by
    rw [Bool.eq_false_iff]
    intro hemp
    exact h (List.isEmpty_iff.mp hemp)
  have hdv0 : detail_view (load_logs lines) level =
      if (filter_logs_by_level (load_logs lines) level).isEmpty then
        [noLogsLine level]
      else (filter_logs_by_level (load_logs lines) level).map recordLine := rfl
  have hdv : detail_view (load_logs lines) level =
      (filter_logs_by_level (load_logs lines) level).map recordLine := by
    rw [hdv0, hne]
    simp
  refine ⟨hdv, ?_, List.filter_sublist _⟩
  rw [hdv, List.length_map]

/-- C7 witness: detail view at a two-line input requesting `error`. -/
theorem detail_view_nonempty_spec_witness :
    filter_logs_by_level
        (load_logs ["2024-01-01 10:00:00 ERROR disk full".toList,
                    "2024-01-01 10:00:01 WARNING low memory".toList])
        "error".toList ≠ [] ∧
    (detail_view
          (load_logs ["2024-01-01 10:00:00 ERROR disk full".toList,
                      "2024-01-01 10:00:01 WARNING low memory".toList])
          "error".toList =
        (filter_logs_by_level
            (load_logs ["2024-01-01 10:00:00 ERROR disk full".toList,
                        "2024-01-01 10:00:01 WARNING low memory".toList])
            "error".toList).map recordLine ∧
      (detail_view
            (load_logs ["2024-01-01 10:00:00 ERROR disk full".toList,
                        "2024-01-01 10:00:01 WARNING low memory".toList])
            "error".toList).length =
        (filter_logs_by_level
            (load_logs ["2024-01-01 10:00:00 ERROR disk full".toList,
                        "2024-01-01 10:00:01 WARNING low memory".toList])
            "error".toList).length ∧
      (filter_logs_by_level
          (load_logs ["2024-01-01 10:00:00 ERROR disk full".toList,
                      "2024-01-01 10:00:01 WARNING low memory".toList])
          "error".toList).Sublist
        (load_logs ["2024-01-01 10:00:00 ERROR disk full".toList,
                    "2024-01-01 10:00:01 WARNING low memory".toList])) :=
  ⟨by decide, detail_view_nonempty_spec _ _ (by decide)⟩

/-- C8: whenever the requested level matches zero records — in particular on
empty input — the detail view renders the single not-found message naming
the uppercased requested level, the very same message the empty input
produces; no error is raised. -/
theorem detail_view_no_match_message (logs : List LogRecord) (level : PyStr)
    (h : filter_logs_by_level logs level = []) :
    detail_view logs level =
      ["No logs found for level '".toList ++ pyUpper level ++ "'.".toList] ∧
    detail_view (load_logs []) level =
      ["No logs found for level '".toList ++ pyUpper level ++ "'.".toList] := by
  constructor
  · have hdv : detail_view logs level =
        if (filter_logs_by_level logs level).isEmpty then [noLogsLine level]
        else (filter_logs_by_level logs level).map recordLine := rfl
    rw [hdv, h]
    rfl
  · rfl

/-- C8 witness: requesting `warning` against a store holding only an `INFO`
record yields the not-found message. -/
theorem detail_view_no_match_message_witness :
    filter_logs_by_level (load_logs ["2024-01-01 10:00:00 INFO ok".toList])
        "warning".toList = [] ∧
    (detail_view (load_logs ["2024-01-01 10:00:00 INFO ok".toList]) "warning".toList =
        ["No logs found for level '".toList ++ pyUpper "warning".toList ++
          "'.".toList] ∧
      detail_view (load_logs []) "warning".toList =
        ["No logs found for level '".toList ++ pyUpper "warning".toList ++
          "'.".toList]) :=
  ⟨by decide, detail_view_no_match_message _ _ (by decide)⟩

/-- C1 counterexample: the line `"a b  c"` (two spaces before `c`) has only
three whitespace-split tokens, so the claim as stated predicts no record,
yet `load_logs` produces one (the program splits on the single space
character, so the double space yields an empty third piece and four pieces
in total). -/
theorem load_logs_ws_token_count_cex :
    (load_logs ["a b  c".toList]).length = 1 ∧
    List.countP (fun s => decide (4 ≤ (wsTokens s).length)) ["a b  c".toList] = 0 ∧
    (load_logs ["a b  c".toList]).length ≠
      List.countP (fun s => decide (4 ≤ (wsTokens s).length)) ["a b  c".toList] := by
  refine ⟨by decide, by decide, by decide⟩

/-- C1 (amended): for every input sequence of lines, the number of records
built by `load_logs` equals the number of input lines whose stripped text
contains at least three space characters — equivalently, lines whose
stripped text splits on the space character into at least four pieces; a
record exists exactly for such lines. -/
theorem load_logs_length_eq_space_count (lines : List PyStr) :
    (load_logs lines).length =
      lines.countP (fun s => decide (3 ≤ (pyStrip s).count ' ')) := by
  rw [load_logs, filterMap_length_countP]
  apply List.countP_congr
  intro s _
  constructor
  · intro hps
    exact decide_eq_true ((parse_isSome_iff s).mp hps)
  · intro hd
    exact (parse_isSome_iff s).mpr (of_decide_eq_true hd)

/-- C2 counterexample: on the line `"a\tb c d e"` the first whitespace-split
piece is `"a"`, but the parser stores `"a\tb"` as the date — the program
splits the stripped line on the single space character, not on whitespace,
so a tab does not separate fields. -/
theorem parse_log_line_ws_split_cex :
    parse_log_line "a\tb c d e".toList =
      some { date := some "a\tb".toList, time := some "c".toList,
             level := some "d".toList, message := some "e".toList } ∧
    (wsTokens "a\tb c d e".toList).head? = some "a".toList ∧
    "a\tb".toList ≠ "a".toList := by
  refine ⟨by decide, by decide, by decide⟩

/-- C2 (amended): `parse_log_line` strips the line, then splits it on the
space character into at most four pieces, the fourth absorbing all remaining
text verbatim including embedded spaces; it returns a record exactly when
the stripped line decomposes as three space-free pieces each followed by one
space and a remainder, the record holding the first three pieces as-is (no
validation, they may even be empty) and the remainder trimmed as message. -/
theorem parse_log_line_characterization (line : PyStr) (r : LogRecord) :
    parse_log_line line = some r ↔
      ∃ d t l m, pyStrip line = d ++ ' ' :: (t ++ ' ' :: (l ++ ' ' :: m)) ∧
        ' ' ∉ d ∧ ' ' ∉ t ∧ ' ' ∉ l ∧
        r = { date := some d, time := some t, level := some l,
              message := some (pyStrip m) } := by
  rw [parse_some_iff]
  constructor
  · rintro ⟨d, t, l, m, hsp, hr⟩
    obtain ⟨hs, hd, ht, hl⟩ := (splitLimit3_eq_four_iff _ d t l m).mp hsp
    exact ⟨d, t, l, m, hs, hd, ht, hl, hr⟩
  · rintro ⟨d, t, l, m, hs, hd, ht, hl, hr⟩
    exact ⟨d, t, l, m, (splitLimit3_eq_four_iff _ d t l m).mpr ⟨hs, hd, ht, hl⟩, hr⟩

theorem insertSorted_perm (x : PyStr) (l : List PyStr) :
    (insertSorted x l).Perm (x :: l) := by
  induction l with
  | nil => exact List.Perm.refl _
  | cons y ys ih =>
    by_cases h : strLeB x y
    · rw [insertSorted, if_pos h]
    · rw [insertSorted, if_neg h]
      exact (List.Perm.cons y ih).trans (List.Perm.swap x y ys)

theorem insertSorted_pairwise (x : PyStr) (l : List PyStr)
    (h : l.Pairwise (fun a b => strLeB a b = true)) :
    (insertSorted x l).Pairwise (fun a b => strLeB a b = true) := by
  induction l with
  | nil => simp [insertSorted]
  | cons y ys ih =>
    by_cases hxy : strLeB x y
    · rw [insertSorted, if_pos hxy]
      refine List.Pairwise.cons ?_ h
      intro z hz
      rcases List.mem_cons.mp hz with h1 | h2
      · subst h1; exact hxy
      · exact strLeB_trans x y z hxy ((List.pairwise_cons.mp h).1 z h2)
    · rw [insertSorted, if_neg hxy]
      have hyx : strLeB y x := by
        have := strLeB_total x y
        rcases Bool.or_eq_true_iff.mp this with h1 | h2
        · exact absurd h1 hxy
        · exact h2
      refine List.Pairwise.cons ?_ (ih (List.pairwise_cons.mp h).2)
      intro z hz
      have hz' : z ∈ x :: ys := (insertSorted_perm x ys).mem_iff.mp hz
      rcases List.mem_cons.mp hz' with h1 | h2
      · subst h1; exact hyx
      · exact (List.pairwise_cons.mp h).1 z h2

theorem sortStrs_perm (l : List PyStr) : (sortStrs l).Perm l := by
  induction l with
  | nil => exact List.Perm.refl _
  | cons x xs ih =>
    exact (insertSorted_perm x (sortStrs xs)).trans (List.Perm.cons x ih)

theorem sortStrs_pairwise (l : List PyStr) :
    (sortStrs l).Pairwise (fun a b => strLeB a b = true) := by
  induction l with
  | nil => simp [sortStrs]
  | cons x xs ih => exact insertSorted_pairwise x (sortStrs xs) ih

/-- C6 counterexample: for the mapping `{INFO: 1}` the data row is
`"INFO             | 1        "` — the level and count are left-aligned and
padded on the right, not left-padded to the field widths as the claim
states. -/
theorem display_log_counts_left_pad_cex :
    (display_log_counts [("INFO".toList, 1)]).get? 2 =
      some (ljust "INFO".toList 16 ++ " | ".toList ++ ljust (natStr 1) 9) ∧
    (display_log_counts [("INFO".toList, 1)]).get? 2 ≠
      some (padLeftSpec "INFO".toList 16 ++ " | ".toList ++
        padLeftSpec (natStr 1) 9) := by
  refine ⟨by decide, by decide⟩

/-- C6 (amended): for every counts mapping (association list with distinct
keys) the counts view renders the header row, the dash separator row, then
exactly one row per distinct level of the mapping — the rows being a
permutation-image of the key set, sorted lexicographically ascending — each
row holding the level and its count left-aligned (padded on the right) to
minimum field widths 16 and 9; an empty mapping renders only the header and
separator. -/
theorem display_log_counts_spec (counts : List (PyStr × Nat))
    (hnd : (counts.map Prod.fst).Nodup) :
    display_log_counts counts =
      headerLine :: separatorLine ::
        (sortStrs (counts.map Prod.fst)).map
          (fun level => countRow level (lookupD counts level)) ∧
    (sortStrs (counts.map Prod.fst)).Perm (counts.map Prod.fst) ∧
    (sortStrs (counts.map Prod.fst)).Pairwise
      (fun a b => strLeB a b = true) ∧
    (sortStrs (counts.map Prod.fst)).Nodup ∧
    (display_log_counts counts).length = counts.length + 2 ∧
    (counts = [] → display_log_counts counts = [headerLine, separatorLine]) := by
  have hperm := sortStrs_perm (counts.map Prod.fst)
  refine ⟨rfl, hperm, sortStrs_pairwise _, ?_, ?_, ?_⟩
  · exact hperm.nodup_iff.mpr hnd
  · rw [display_log_counts]
    simp [List.length_map, hperm.length_eq]
  · intro h
    subst h
    rfl

/-- C6 witness: the two-level mapping `{ERROR: 1, INFO: 2}` renders header,
separator and its two rows in ascending key order. -/
theorem display_log_counts_spec_witness :
    (([("ERROR".toList, 1), ("INFO".toList, 2)] : List (PyStr × Nat)).map
        Prod.fst).Nodup ∧
    (display_log_counts [("ERROR".toList, 1), ("INFO".toList, 2)] =
        headerLine :: separatorLine ::
          (sortStrs (([("ERROR".toList, 1), ("INFO".toList, 2)] :
              List (PyStr × Nat)).map Prod.fst)).map
            (fun level => countRow level
              (lookupD [("ERROR".toList, 1), ("INFO".toList, 2)] level)) ∧
      (sortStrs (([("ERROR".toList, 1), ("INFO".toList, 2)] :
          List (PyStr × Nat)).map Prod.fst)).Perm
        (([("ERROR".toList, 1), ("INFO".toList, 2)] :
          List (PyStr × Nat)).map Prod.fst) ∧
      (sortStrs (([("ERROR".toList, 1), ("INFO".toList, 2)] :
          List (PyStr × Nat)).map Prod.fst)).Pairwise
        (fun a b => strLeB a b = true) ∧
      (sortStrs (([("ERROR".toList, 1), ("INFO".toList, 2)] :
          List (PyStr × Nat)).map Prod.fst)).Nodup ∧
      (display_log_counts [("ERROR".toList, 1), ("INFO".toList, 2)]).length =
        ([("ERROR".toList, 1), ("INFO".toList, 2)] :
          List (PyStr × Nat)).length + 2 ∧
      (([("ERROR".toList, 1), ("INFO".toList, 2)] : List (PyStr × Nat)) = [] →
        display_log_counts [("ERROR".toList, 1), ("INFO".toList, 2)] =
          [headerLine, separatorLine])) :=
  ⟨by decide, display_log_counts_spec _ (by decide)⟩
